import Mathlib

/-!
# Verification of `syncmap` (zephyrtronium/syncmap)

A shallow embedding of the package's two historical variants of `Map`
(`syncmap.go`): a concurrent read-mostly map with string keys, made of

* a snapshot map `v : map[string]*entry` (read lock-free),
* a locked `dirty : map[string]*entry`, and
* a `misses` counter driving promotion of `dirty` into the snapshot.

The embedding is sequential (one operation at a time).  Go maps
`map[string]*entry` become association lists `List (String × Nat)`
pairing a key with the id of its entry cell; the heap of `*entry`
cells becomes a list `cells : List (Option V)`, where index `i` is the
cell with id `i` and `none` models a nil `p` pointer inside the entry
(the deleted state).  Sharing of `*entry` pointers between the
snapshot and the dirty map is sharing of cell ids.  `interface{}`
values become an arbitrary type `V`; a nil interface result is `none`.

Go's zero `Map` has `v` empty (a nil `atomic.Value` asserts to a nil
map, which reads as empty) and a nil `dirty` map.  A nil Go map reads
as empty, `len` is 0, and `delete` on it is a no-op; every write to
`dirty` happens after `miss()` has replaced it with a `make`n map.  A
nil map is therefore embedded as the empty association list.
-/

namespace Syncmap

/-- Lookup in a Go `map[string]*entry` embedded as an association list:
the (first) cell id bound to key `q`, or `none` when `q` is absent
(Go: `mv[k]` yielding a nil `*entry` for an absent key). -/
def alookup : List (String × Nat) → String → Option Nat
  | [], _ => none
  | (k, i) :: l, q => if k = q then some i else alookup l q

/-- Go `delete(m, k)`: drop the binding of key `q`. -/
def aerase : List (String × Nat) → String → List (String × Nat)
  | [], _ => []
  | (k, i) :: l, q => if k = q then aerase l q else (k, i) :: aerase l q

/-- Go `m[k] = e`: bind key `q` to cell id `i`, replacing any previous
binding. -/
def ainsert (l : List (String × Nat)) (q : String) (i : Nat) : List (String × Nat) :=
  (q, i) :: aerase l q

/-- The contents of the entry cell with id `i`: `atomic.LoadPointer(&e.p)`,
`none` for the nil (deleted) pointer.  Ids handed out by the operations
are always in range; out-of-range ids read as `none`. -/
def cellAt (cells : List (Option V)) (i : Nat) : Option V :=
  cells.getD i none

/-- The state of a `Map` (second variant, and likewise
the first variant, syncmap.go lines 11–18): snapshot `v`, locked `dirty`,
the `misses` counter, plus the heap `cells` of all entry cells ever
allocated (Go keeps these behind `*entry` pointers). -/
structure Map (V : Type) where
  v : List (String × Nat)
  dirty : List (String × Nat)
  misses : Nat
  cells : List (Option V)
  deriving Repr, DecidableEq

/-- The zero `Map`: `var m syncmap.Map`.  Both maps read as empty and no
cell exists. -/
def Map.zero : Map V := ⟨[], [], 0, []⟩

/-- Method `entry.load` (second variant, syncmap.go lines 226–236): nil entry or
nil payload pointer reports `(nil, false)`; otherwise the stored value
with `true`. -/
def entry.load (cells : List (Option V)) : Option Nat → Option V × Bool
  | none => (none, false)
  | some i =>
    match cellAt cells i with
    | none => (none, false)
    | some x => (some x, true)

/-- Method `entry.store` (syncmap.go lines 238–240): atomically point the cell
at a fresh copy of the value. -/
def entry.store (cells : List (Option V)) (i : Nat) (x : V) : List (Option V) :=
  cells.set i (some x)

/-- Method `entry.delete` (second variant, syncmap.go lines 242–244): atomically
store the nil pointer, marking the cell deleted. -/
def entry.delete (cells : List (Option V)) (i : Nat) : List (Option V) :=
  cells.set i none

/-- Function `newEntry(v)` allocates a fresh cell; in the embedding the fresh id is
`cells.length` and the heap grows by one cell holding the value. -/
def newEntry (cells : List (Option V)) (x : V) : List (Option V) :=
  cells ++ [some x]

/-- The rebuild loop of `Map.miss` (second variant, syncmap.go lines
209–214): keep exactly the pairs whose cell is not deleted
(`atomic.LoadPointer(&v.p) != nil`), sharing the same cells. -/
def aliveFilter (cells : List (Option V)) : List (String × Nat) → List (String × Nat)
  | [] => []
  | (k, i) :: l =>
    if (cellAt cells i).isSome then (k, i) :: aliveFilter cells l
    else aliveFilter cells l

/-- Method `Map.miss` (second variant, syncmap.go lines 202–216): count the miss;
once `misses` reaches `len(dirty)`, install the dirty map as the new
snapshot, rebuild `dirty` from its still-alive entries, and reset the
counter. -/
def Map.miss (m : Map V) : Map V :=
  if m.misses + 1 < m.dirty.length then { m with misses := m.misses + 1 }
  else
    { m with v := m.dirty
           , dirty := aliveFilter m.cells m.dirty
           , misses := 0 }

/-- Method `Map.Store` (second variant, syncmap.go lines 114–133): store into the
snapshot's cell when present; otherwise re-check under the lock, then
the dirty map; otherwise record a miss and allocate a fresh cell in the
dirty map. -/
def Map.Store (m : Map V) (k : String) (x : V) : Map V :=
  match alookup m.v k with
  | some i => { m with cells := entry.store m.cells i x }
  | none =>
    match alookup m.v k with
    | some i => { m with cells := entry.store m.cells i x }
    | none =>
      match alookup m.dirty k with
      | some i => { m with cells := entry.store m.cells i x }
      | none =>
        let m1 := m.miss
        { m1 with dirty := ainsert m1.dirty k m1.cells.length
                , cells := newEntry m1.cells x }

/-- Method `Map.Load` (second variant, syncmap.go lines 136–151): read through
the snapshot's cell when present; otherwise re-check under the lock,
fall back to the dirty map and record a miss.  The returned pair is
`e.load()`. -/
def Map.Load (m : Map V) (k : String) : (Option V × Bool) × Map V :=
  match alookup m.v k with
  | some i => (entry.load m.cells (some i), m)
  | none =>
    match alookup m.v k with
    | some i => (entry.load m.cells (some i), m)
    | none =>
      let e := alookup m.dirty k
      let m1 := m.miss
      (entry.load m1.cells e, m1)

/-- Method `Map.LoadOrStore` (second variant, syncmap.go lines 155–177): return
`e.load()` when the snapshot has a cell; otherwise, under the lock,
re-check the snapshot, consult the dirty map, record a miss either way,
and only on a complete absence allocate a fresh cell holding `x`. -/
def Map.LoadOrStore (m : Map V) (k : String) (x : V) : (Option V × Bool) × Map V :=
  match alookup m.v k with
  | some i => (entry.load m.cells (some i), m)
  | none =>
    match alookup m.v k with
    | some i => (entry.load m.cells (some i), m)
    | none =>
      match alookup m.dirty k with
      | some i =>
        let m1 := m.miss
        (entry.load m1.cells (some i), m1)
      | none =>
        let m1 := m.miss
        ((some x, false), { m1 with dirty := ainsert m1.dirty k m1.cells.length
                                  , cells := newEntry m1.cells x })

/-- Method `Map.Delete` (second variant, syncmap.go lines 180–198): when the
snapshot has a cell, `e.delete()` marks it deleted; otherwise, under the
lock and after the re-check, `delete(m.dirty, k)` removes the binding
and a miss is recorded. -/
def Map.Delete (m : Map V) (k : String) : Map V :=
  match alookup m.v k with
  | some i => { m with cells := entry.delete m.cells i }
  | none =>
    match alookup m.v k with
    | some i => { m with cells := entry.delete m.cells i }
    | none =>
      Map.miss { m with dirty := aerase m.dirty k }

/-- Modelled from the spec: `Map.LoadAndDelete` is not under `src/` (only
its tests in the test file and the swapping `entry.delete` of the final
entry file are); spec section 4.3: fast path swaps the snapshot's cell
to empty and returns the prior (value, found); the slow path, under the
lock and after the re-check, performs the same swap on a cell found in
the dirty map, otherwise reports not-found; a lookup that required the
lock records a miss (glossary: a miss is any lookup that required
falling back to the locked dirty-map path). -/
def Map.LoadAndDelete (m : Map V) (k : String) : (Option V × Bool) × Map V :=
  match alookup m.v k with
  | some i =>
    let old := cellAt m.cells i
    ((old, old.isSome), { m with cells := entry.delete m.cells i })
  | none =>
    match alookup m.v k with
    | some i =>
      let old := cellAt m.cells i
      ((old, old.isSome), { m with cells := entry.delete m.cells i })
    | none =>
      match alookup m.dirty k with
      | some i =>
        let old := cellAt m.cells i
        ((old, old.isSome), Map.miss { m with cells := entry.delete m.cells i })
      | none => ((none, false), m.miss)

/-- Method `entry.load` of the first variant (syncmap.go lines 83–88): a nil
entry reads as nil; otherwise the payload pointer is dereferenced
unconditionally (it is never nil in the first variant, which has no
delete). -/
def V1.load (cells : List (Option V)) : Option Nat → Option V
  | none => none
  | some i => cellAt cells i

/-- The rebuild loop of the first variant's `Map.miss` (syncmap.go lines
70–72): copy every pair of the promoted map into the fresh dirty map,
sharing the same cells. -/
def copyAll : List (String × Nat) → List (String × Nat)
  | [] => []
  | p :: l => p :: copyAll l

/-- Method `Map.miss` of the first variant (syncmap.go lines 62–74): like the
second variant's, but the fresh dirty map receives every entry of the
promoted map, deleted or not (the first variant has no deleted state). -/
def V1.miss (m : Map V) : Map V :=
  if m.misses + 1 < m.dirty.length then { m with misses := m.misses + 1 }
  else
    { m with v := m.dirty
           , dirty := copyAll m.dirty
           , misses := 0 }

/-- Method `Map.Store` of the first variant (syncmap.go lines 21–39): textually
the second variant's Store, calling the first variant's miss. -/
def V1.Store (m : Map V) (k : String) (x : V) : Map V :=
  match alookup m.v k with
  | some i => { m with cells := entry.store m.cells i x }
  | none =>
    match alookup m.v k with
    | some i => { m with cells := entry.store m.cells i x }
    | none =>
      match alookup m.dirty k with
      | some i => { m with cells := entry.store m.cells i x }
      | none =>
        let m1 := V1.miss m
        { m1 with dirty := ainsert m1.dirty k m1.cells.length
                , cells := newEntry m1.cells x }

/-- Method `Map.Load` of the first variant (syncmap.go lines 42–58): `ok` is the
map-lookup success (not read from the cell), and the value is
`e.load()` of the first variant. -/
def V1.Load (m : Map V) (k : String) : (Option V × Bool) × Map V :=
  match alookup m.v k with
  | some i => ((V1.load m.cells (some i), true), m)
  | none =>
    match alookup m.v k with
    | some i => ((V1.load m.cells (some i), true), m)
    | none =>
      let e := alookup m.dirty k
      let m1 := V1.miss m
      ((V1.load m1.cells e, e.isSome), m1)

/-- A sequential client operation on the second variant. -/
inductive Op (V : Type) where
  | store (k : String) (x : V)
  | load (k : String)
  | del (k : String)
  | loadOrStore (k : String) (x : V)
  deriving Repr, DecidableEq

/-- One client operation on the second variant, keeping only the state. -/
def stepOp (m : Map V) : Op V → Map V
  | .store k x => m.Store k x
  | .load k => (m.Load k).2
  | .del k => m.Delete k
  | .loadOrStore k x => (m.LoadOrStore k x).2

/-- Run a sequence of client operations on the zero `Map`. -/
def runOps (ops : List (Op V)) : Map V :=
  ops.foldl stepOp Map.zero

/-- A store/load-only operation, interpretable by both variants. -/
inductive RWOp (V : Type) where
  | store (k : String) (x : V)
  | load (k : String)
  deriving Repr, DecidableEq

/-- Run a store/load-only sequence on the first variant, collecting every
Load's `(value, ok)` result. -/
def run1 : List (RWOp V) → Map V → Map V × List (Option V × Bool)
  | [], m => (m, [])
  | .store k x :: rest, m => run1 rest (V1.Store m k x)
  | .load k :: rest, m =>
    let r := V1.Load m k
    let t := run1 rest r.2
    (t.1, r.1 :: t.2)

/-- Run a store/load-only sequence on the second variant, collecting every
Load's `(value, ok)` result. -/
def run2 : List (RWOp V) → Map V → Map V × List (Option V × Bool)
  | [], m => (m, [])
  | .store k x :: rest, m => run2 rest (Map.Store m k x)
  | .load k :: rest, m =>
    let r := Map.Load m k
    let t := run2 rest r.2
    (t.1, r.1 :: t.2)

/-- Well-formedness: every cell id bound by the snapshot or the dirty map
refers to an allocated cell.  (In Go every `*entry` in either map is a
valid pointer.) -/
def Map.WF (m : Map V) : Prop :=
  (∀ p ∈ m.v, p.2 < m.cells.length) ∧ (∀ p ∈ m.dirty, p.2 < m.cells.length)

instance (m : Map V) : Decidable m.WF := by
  unfold Map.WF; infer_instance

/-- A list of key/cell-id pairs binds at most one cell id per key.
(Reachable snapshot and dirty maps embed Go maps, which do.) -/
def Functional (l : List (String × Nat)) : Prop :=
  ∀ k i j, (k, i) ∈ l → (k, j) ∈ l → i = j

/-- Two key/cell-id lists never bind the same key to different cell ids. -/
def Agree (a b : List (String × Nat)) : Prop :=
  ∀ k i j, (k, i) ∈ a → (k, j) ∈ b → i = j

/-- The single-cell-per-key invariant of the second variant: each of the
snapshot and the dirty map binds one cell per key, and a key in both
is bound to the same (shared) cell. -/
def Inv (m : Map V) : Prop :=
  Functional m.v ∧ Functional m.dirty ∧ Agree m.v m.dirty

/-- States shared by the two variants' behaviours: well-formed cell ids
and no deleted cell (the first variant cannot delete). -/
def Good (m : Map V) : Prop :=
  m.WF ∧ ∀ c ∈ m.cells, c.isSome = true

/-- Failing input for claim C1: store "a", promote, tombstone "a" in the
snapshot via Delete, promote again (dropping "a" from the dirty map),
then revive "a" through the snapshot cell with a second Store. -/
def c1ops : List (Op Nat) :=
  [.store "a" 1, .load "x", .del "a", .load "x", .store "a" 2]

/-- Failing input for claim C3: after these operations key "a" sits in the
snapshot with a tombstoned cell. -/
def c3ops : List (Op Nat) :=
  [.store "a" 1, .load "x", .del "a"]

/-- Input for claim C5: after this store key "a" lives only in the dirty
map, so a Delete takes the slow path. -/
def c5ops : List (Op Nat) :=
  [.store "a" 1]

/-- Input for claims C8/C9 witnesses: after these operations key "a" is in
both the snapshot and the dirty map, bound to cell 0. -/
def c8ops : List (Op Nat) :=
  [.store "a" 1, .load "x"]

/-- A state about to promote on the next miss (misses ≥ dirty size), with
one live and one deleted entry, for the C4 witness. -/
def c4promote : Map Nat := ⟨[], [("a", 0), ("b", 1)], 5, [some 7, none]⟩

/-- A state whose next miss stays below the promotion threshold, for the
C4 witness. -/
def c4stable : Map Nat := ⟨[], [("a", 0), ("b", 1)], 0, [some 7, some 8]⟩


/-! ## Basic lemmas on the embedded map primitives -/

theorem alookup_mem {l : List (String × Nat)} {q : String} {i : Nat}
    (h : alookup l q = some i) : (q, i) ∈ l := by
  induction l with
  | nil => simp [alookup] at h
  | cons p t ih =>
    obtain ⟨k, j⟩ := p
    by_cases hk : k = q
    · subst hk
      simp [alookup] at h
      simp [h]
    · simp [alookup, hk] at h
      exact List.mem_cons_of_mem _ (ih h)

theorem alookup_isSome_of_mem {l : List (String × Nat)} {q : String} {i : Nat}
    (h : (q, i) ∈ l) : (alookup l q).isSome = true := by
  induction l with
  | nil => simp at h
  | cons hd t ih =>
    obtain ⟨k, j⟩ := hd
    by_cases hk : k = q
    · simp [alookup, hk]
    · simp only [alookup, hk, if_false]
      rcases List.mem_cons.1 h with he | ht
      · injection he with h1 h2
        exact absurd h1.symm hk
      · exact ih ht

theorem not_mem_of_alookup_none {l : List (String × Nat)} {q : String}
    (h : alookup l q = none) (i : Nat) : (q, i) ∉ l := by
  intro hm
  have hs := alookup_isSome_of_mem hm
  rw [h] at hs
  simp at hs

theorem mem_aerase {l : List (String × Nat)} {q : String} {p : String × Nat}
    (h : p ∈ aerase l q) : p ∈ l ∧ p.1 ≠ q := by
  induction l with
  | nil => simp [aerase] at h
  | cons hd t ih =>
    obtain ⟨k, j⟩ := hd
    by_cases hk : k = q
    · simp [aerase, hk] at h
      have := ih h
      exact ⟨List.mem_cons_of_mem _ this.1, this.2⟩
    · simp [aerase, hk] at h
      rcases h with h | h
      · subst h; exact ⟨List.mem_cons_self _ _, hk⟩
      · have := ih h
        exact ⟨List.mem_cons_of_mem _ this.1, this.2⟩

theorem alookup_aerase_self (l : List (String × Nat)) (q : String) :
    alookup (aerase l q) q = none := by
  induction l with
  | nil => rfl
  | cons hd t ih =>
    obtain ⟨k, j⟩ := hd
    by_cases hk : k = q
    · simp [aerase, hk, ih]
    · simp [aerase, alookup, hk, ih]

theorem alookup_ainsert_self (l : List (String × Nat)) (q : String) (i : Nat) :
    alookup (ainsert l q i) q = some i := by
  simp [ainsert, alookup]

theorem mem_ainsert {l : List (String × Nat)} {q : String} {i : Nat} {p : String × Nat}
    (h : p ∈ ainsert l q i) : p = (q, i) ∨ (p ∈ l ∧ p.1 ≠ q) := by
  simp [ainsert] at h
  rcases h with h | h
  · exact Or.inl h
  · exact Or.inr (mem_aerase h)

theorem mem_aliveFilter {c : List (Option V)} {l : List (String × Nat)} {p : String × Nat} :
    p ∈ aliveFilter c l ↔ p ∈ l ∧ (cellAt c p.2).isSome = true := by
  induction l with
  | nil => simp [aliveFilter]
  | cons hd t ih =>
    obtain ⟨k, j⟩ := hd
    unfold aliveFilter
    by_cases ha : (cellAt c j).isSome = true
    · rw [if_pos ha]
      constructor
      · intro h
        rcases List.mem_cons.1 h with he | ht
        · subst he; exact ⟨List.mem_cons_self _ _, ha⟩
        · have h3 := ih.1 ht
          exact ⟨List.mem_cons_of_mem _ h3.1, h3.2⟩
      · rintro ⟨h, h2⟩
        rcases List.mem_cons.1 h with he | ht
        · subst he; exact List.mem_cons_self _ _
        · exact List.mem_cons_of_mem _ (ih.2 ⟨ht, h2⟩)
    · rw [if_neg ha]
      constructor
      · intro h
        have h3 := ih.1 h
        exact ⟨List.mem_cons_of_mem _ h3.1, h3.2⟩
      · rintro ⟨h, h2⟩
        rcases List.mem_cons.1 h with he | ht
        · subst he; exact absurd h2 ha
        · exact ih.2 ⟨ht, h2⟩

theorem alookup_aliveFilter_none {c : List (Option V)} {l : List (String × Nat)} {q : String}
    (h : alookup l q = none) : alookup (aliveFilter c l) q = none := by
  cases hf : alookup (aliveFilter c l) q with
  | none => rfl
  | some i =>
    have hm := alookup_mem hf
    have := (mem_aliveFilter.1 hm).1
    exact absurd this (not_mem_of_alookup_none h i)

theorem cellAt_set_none (l : List (Option V)) (i : Nat) :
    cellAt (l.set i none) i = none := by
  induction l generalizing i with
  | nil => simp [cellAt]
  | cons a t ih =>
    cases i with
    | zero => rfl
    | succ n => simpa [cellAt, List.getD] using ih n

theorem cellAt_set_self {l : List (Option V)} {i : Nat} (h : i < l.length) (x : Option V) :
    cellAt (l.set i x) i = x := by
  induction l generalizing i with
  | nil => simp at h
  | cons a t ih =>
    cases i with
    | zero => rfl
    | succ n =>
      simp at h
      simpa [cellAt, List.getD] using ih h

theorem cellAt_append_self (l : List (Option V)) (x : Option V) :
    cellAt (l ++ [x]) l.length = x := by
  induction l with
  | nil => rfl
  | cons a t ih => simp [cellAt, List.getD] at ih ⊢

theorem cellAt_mem {c : List (Option V)} {i : Nat} (h : i < c.length) :
    cellAt c i ∈ c := by
  induction c generalizing i with
  | nil => simp at h
  | cons a t ih =>
    cases i with
    | zero => simp [cellAt]
    | succ n =>
      simp at h
      have h2 := ih (i := n) h
      simp [cellAt, List.getD] at h2 ⊢
      exact Or.inr h2

/-! ## Structural lemmas on `Map.miss` -/

theorem miss_cells (m : Map V) : m.miss.cells = m.cells := by
  unfold Map.miss
  split <;> rfl

theorem miss_misses_le (m : Map V) :
    m.miss.misses = m.misses + 1 ∨ m.miss.misses = 0 := by
  unfold Map.miss
  split
  · exact Or.inl rfl
  · exact Or.inr rfl

theorem miss_v_cases (m : Map V) : m.miss.v = m.v ∨ m.miss.v = m.dirty := by
  unfold Map.miss
  split
  · exact Or.inl rfl
  · exact Or.inr rfl

theorem mem_miss_dirty {m : Map V} {p : String × Nat} (h : p ∈ m.miss.dirty) :
    p ∈ m.dirty := by
  unfold Map.miss at h
  split at h
  · exact h
  · exact (mem_aliveFilter.1 h).1

theorem alookup_miss_v_none {m : Map V} {q : String}
    (hv : alookup m.v q = none) (hd : alookup m.dirty q = none) :
    alookup m.miss.v q = none := by
  rcases miss_v_cases m with h | h <;> rw [h] <;> assumption

theorem alookup_miss_dirty_none {m : Map V} {q : String}
    (hd : alookup m.dirty q = none) :
    alookup m.miss.dirty q = none := by
  unfold Map.miss
  split
  · exact hd
  · exact alookup_aliveFilter_none hd


/-! ## Path lemmas: which branch each operation takes -/

theorem Load_eq_fast {m : Map V} {k : String} {i : Nat}
    (h : alookup m.v k = some i) :
    Map.Load m k = (entry.load m.cells (some i), m) := by
  simp [Map.Load, h]

theorem Load_eq_slow {m : Map V} {k : String}
    (h : alookup m.v k = none) :
    Map.Load m k = (entry.load m.miss.cells (alookup m.dirty k), m.miss) := by
  simp [Map.Load, h]

theorem Store_eq_v {m : Map V} {k : String} {i : Nat} (x : V)
    (h : alookup m.v k = some i) :
    Map.Store m k x = { m with cells := entry.store m.cells i x } := by
  simp [Map.Store, h]

theorem Store_eq_dirty {m : Map V} {k : String} {i : Nat} (x : V)
    (hv : alookup m.v k = none) (hd : alookup m.dirty k = some i) :
    Map.Store m k x = { m with cells := entry.store m.cells i x } := by
  simp [Map.Store, hv, hd]

theorem Store_eq_alloc {m : Map V} {k : String} (x : V)
    (hv : alookup m.v k = none) (hd : alookup m.dirty k = none) :
    Map.Store m k x =
      { m.miss with dirty := ainsert m.miss.dirty k m.miss.cells.length
                  , cells := newEntry m.miss.cells x } := by
  simp [Map.Store, hv, hd]

theorem Delete_eq_fast {m : Map V} {k : String} {i : Nat}
    (h : alookup m.v k = some i) :
    Map.Delete m k = { m with cells := entry.delete m.cells i } := by
  simp [Map.Delete, h]

theorem Delete_eq_slow {m : Map V} {k : String}
    (h : alookup m.v k = none) :
    Map.Delete m k = Map.miss { m with dirty := aerase m.dirty k } := by
  simp [Map.Delete, h]

theorem LoadOrStore_eq_fast {m : Map V} {k : String} {i : Nat} (x : V)
    (h : alookup m.v k = some i) :
    Map.LoadOrStore m k x = (entry.load m.cells (some i), m) := by
  simp [Map.LoadOrStore, h]

theorem LoadOrStore_eq_dirty {m : Map V} {k : String} {i : Nat} (x : V)
    (hv : alookup m.v k = none) (hd : alookup m.dirty k = some i) :
    Map.LoadOrStore m k x = (entry.load m.miss.cells (some i), m.miss) := by
  simp [Map.LoadOrStore, hv, hd]

theorem LoadOrStore_eq_alloc {m : Map V} {k : String} (x : V)
    (hv : alookup m.v k = none) (hd : alookup m.dirty k = none) :
    Map.LoadOrStore m k x =
      ((some x, false),
       { m.miss with dirty := ainsert m.miss.dirty k m.miss.cells.length
                   , cells := newEntry m.miss.cells x }) := by
  simp [Map.LoadOrStore, hv, hd]

theorem LoadAndDelete_eq_v {m : Map V} {k : String} {i : Nat}
    (h : alookup m.v k = some i) :
    Map.LoadAndDelete m k =
      ((cellAt m.cells i, (cellAt m.cells i).isSome),
       { m with cells := entry.delete m.cells i }) := by
  simp [Map.LoadAndDelete, h]

theorem LoadAndDelete_eq_dirty {m : Map V} {k : String} {i : Nat}
    (hv : alookup m.v k = none) (hd : alookup m.dirty k = some i) :
    Map.LoadAndDelete m k =
      ((cellAt m.cells i, (cellAt m.cells i).isSome),
       Map.miss { m with cells := entry.delete m.cells i }) := by
  simp [Map.LoadAndDelete, hv, hd]

theorem LoadAndDelete_eq_none {m : Map V} {k : String}
    (hv : alookup m.v k = none) (hd : alookup m.dirty k = none) :
    Map.LoadAndDelete m k = ((none, false), m.miss) := by
  simp [Map.LoadAndDelete, hv, hd]

/-- A Load reports `(nil, false)` whenever every cell it can reach for the
key is deleted. -/
theorem Load_reports_none {m : Map V} {k : String}
    (h1 : ∀ i, alookup m.v k = some i → cellAt m.cells i = none)
    (h2 : alookup m.v k = none →
      ∀ i, alookup m.dirty k = some i → cellAt m.cells i = none) :
    (Map.Load m k).1 = (none, false) := by
  cases hv : alookup m.v k with
  | some i =>
    rw [Load_eq_fast hv]
    simp [entry.load, h1 i hv]
  | none =>
    rw [Load_eq_slow hv]
    cases hd : alookup m.dirty k with
    | none => simp [entry.load]
    | some i =>
      simp [entry.load, miss_cells, h2 hv i hd]

/-- A deleted key stays deleted: after `Delete(k)`, with no operation in
between, `Load(k)` reports `(nil, false)` from any starting state. -/
theorem Load_after_Delete (m : Map V) (k : String) :
    (Map.Load (Map.Delete m k) k).1 = (none, false) := by
  cases hv : alookup m.v k with
  | some i =>
    rw [Delete_eq_fast hv]
    apply Load_reports_none
    · intro i2 h
      have hii : i2 = i := by
        change alookup m.v k = some i2 at h
        rw [hv] at h; injection h with h; exact h.symm
      rw [hii]
      simp [entry.delete, cellAt_set_none]
    · intro hnone
      change alookup m.v k = none at hnone
      rw [hv] at hnone; cases hnone
  | none =>
    rw [Delete_eq_slow hv]
    apply Load_reports_none
    · intro i h
      exfalso
      have hvm : alookup (Map.miss { m with dirty := aerase m.dirty k }).v k = none := by
        apply alookup_miss_v_none
        · exact hv
        · exact alookup_aerase_self m.dirty k
      rw [hvm] at h; cases h
    · intro _ i h
      exfalso
      have hdm : alookup (Map.miss { m with dirty := aerase m.dirty k }).dirty k = none := by
        apply alookup_miss_dirty_none
        exact alookup_aerase_self m.dirty k
      rw [hdm] at h; cases h

/-! ## Claim C2 -/

/-- C2: for every map state and key `k`, `Store(k, v)` followed by
`Delete(k)` leaves the map so that `Load(k)` returns `(no-value, false)`. -/
theorem C2_store_delete_load (m : Map V) (k : String) (x : V) :
    (Map.Load (Map.Delete (Map.Store m k x) k) k).1 = (none, false) :=
  Load_after_Delete (Map.Store m k x) k

/-! ## Claim C6 -/

/-- C6: every operation on the zero `Map` behaves as on an empty map and
does not fail: `Load` of any key returns `(no-value, false)`, `Delete`
of any key is an (observational) no-op, and a `Store` of any key takes
effect, as witnessed by the following `Load`. -/
theorem C6_zero_map (k q : String) (x : V) :
    (Map.Load (Map.zero : Map V) k).1 = (none, false)
    ∧ (Map.Load (Map.Delete (Map.zero : Map V) k) q).1 = (none, false)
    ∧ (Map.Load (Map.Store (Map.zero : Map V) k x) k).1 = (some x, true) := by
  refine ⟨?_, ?_, ?_⟩
  · simp [Map.Load, Map.zero, alookup, Map.miss, aliveFilter, entry.load]
  · simp [Map.Load, Map.Delete, Map.zero, alookup, aerase, Map.miss, aliveFilter, entry.load]
  · simp [Map.Load, Map.Store, Map.zero, alookup, ainsert, aerase, newEntry, Map.miss,
      aliveFilter, entry.load, cellAt, List.getD]

/-! ## Claim C9 -/

/-- C9: a Load that falls back to the locked path (key absent from the
snapshot) leaves the map exactly as one recorded miss does, even when
the key is then found in the dirty map; a Load satisfied from the
snapshot leaves the state (in particular the miss counter and the
dirty map) unchanged. -/
theorem C9_load_miss_accounting (m : Map V) (k : String) :
    (alookup m.v k = none → (Map.Load m k).2 = Map.miss m)
    ∧ (∀ i, alookup m.v k = some i →
        (Map.Load m k).2 = m) := by
  constructor
  · intro h
    rw [Load_eq_slow h]
  · intro i h
    rw [Load_eq_fast h]

/-- Witness for C9 at concrete inputs: the zero map misses on "a" (absent
from the snapshot); after `c8ops` the key "a" is in the snapshot and a
Load of it changes nothing. -/
theorem C9_witness :
    (Map.Load (Map.zero : Map Nat) "a").2 = Map.miss Map.zero
    ∧ (Map.Load (runOps c8ops) "a").2 = runOps c8ops :=
  ⟨(C9_load_miss_accounting Map.zero "a").1 (by decide),
   (C9_load_miss_accounting (runOps c8ops) "a").2 0 (by decide)⟩

/-! ## Claim C4 -/

/-- C4: recording a miss promotes exactly when the incremented miss
counter reaches the dirty-map size: then the dirty map itself becomes
the snapshot, the fresh dirty map holds exactly the pairs whose cell is
not deleted (same cells), and the counter resets to zero; below the
threshold only the counter changes. -/
theorem C4_miss_promotion (m : Map V) :
    (m.dirty.length ≤ m.misses + 1 →
       m.miss.v = m.dirty
       ∧ (∀ k i, (k, i) ∈ m.miss.dirty ↔ ((k, i) ∈ m.dirty ∧ (cellAt m.cells i).isSome = true))
       ∧ m.miss.misses = 0
       ∧ m.miss.cells = m.cells)
    ∧ (m.misses + 1 < m.dirty.length →
       m.miss.v = m.v ∧ m.miss.dirty = m.dirty ∧ m.miss.cells = m.cells
       ∧ m.miss.misses = m.misses + 1) := by
  constructor
  · intro h
    have hnot : ¬ (m.misses + 1 < m.dirty.length) := Nat.not_lt.2 h
    refine ⟨?_, ?_, ?_, ?_⟩
    · simp [Map.miss, hnot]
    · intro k i
      simp [Map.miss, hnot, mem_aliveFilter]
    · simp [Map.miss, hnot]
    · simp [Map.miss, hnot]
  · intro h
    refine ⟨?_, ?_, ?_, ?_⟩ <;> simp [Map.miss, h]

/-- Witness for C4: at `c4promote` (misses 5, two dirty entries, one cell
deleted) the miss promotes, keeps only the live pair and drops the dead
one; at `c4stable` (misses 0, two dirty entries) it only counts. -/
theorem C4_witness :
    c4promote.miss.v = c4promote.dirty
    ∧ (("a", 0) ∈ c4promote.miss.dirty ↔
        (("a", 0) ∈ c4promote.dirty ∧ (cellAt c4promote.cells 0).isSome = true))
    ∧ (("b", 1) ∈ c4promote.miss.dirty ↔
        (("b", 1) ∈ c4promote.dirty ∧ (cellAt c4promote.cells 1).isSome = true))
    ∧ c4promote.miss.misses = 0
    ∧ c4stable.miss.v = c4stable.v ∧ c4stable.miss.dirty = c4stable.dirty
    ∧ c4stable.miss.misses = 1 :=
  ⟨((C4_miss_promotion c4promote).1 (by decide)).1,
   ((C4_miss_promotion c4promote).1 (by decide)).2.1 "a" 0,
   ((C4_miss_promotion c4promote).1 (by decide)).2.1 "b" 1,
   ((C4_miss_promotion c4promote).1 (by decide)).2.2.1,
   ((C4_miss_promotion c4stable).2 (by decide)).1,
   ((C4_miss_promotion c4stable).2 (by decide)).2.1,
   ((C4_miss_promotion c4stable).2 (by decide)).2.2.2⟩

/-! ## Claim C5 -/

/-- C5 counterexample: after `c5ops` the key "a" is bound to cell 0 in the
dirty map only; `Delete("a")` then takes the slow path and, contrary to
the claim, removes the binding from the dirty map and leaves the cell
contents untouched (no atomic swap to empty). -/
theorem C5_counterexample :
    alookup (runOps c5ops).dirty "a" = some 0
    ∧ alookup (Map.Delete (runOps c5ops) "a").dirty "a" = none
    ∧ (Map.Delete (runOps c5ops) "a").cells = [some 1] := by decide

/-- C5 (amended): a Delete on the slow path (key absent from the snapshot
after the re-check) removes the map entry itself from the dirty map and
records a miss; it performs no swap on any entry cell, leaving all cell
contents unchanged. -/
theorem C5_amended_slow_delete (m : Map V) (k : String)
    (h : alookup m.v k = none) :
    Map.Delete m k = Map.miss { m with dirty := aerase m.dirty k }
    ∧ (Map.Delete m k).cells = m.cells
    ∧ alookup (Map.Delete m k).dirty k = none := by
  have he := Delete_eq_slow (m := m) (k := k) h
  refine ⟨he, ?_, ?_⟩
  · rw [he, miss_cells]
  · rw [he]
    exact alookup_miss_dirty_none (alookup_aerase_self m.dirty k)

/-- Witness for the amended C5 at the concrete slow-path input. -/
theorem C5_amended_witness :
    Map.Delete (runOps c5ops) "a"
      = Map.miss { runOps c5ops with dirty := aerase (runOps c5ops).dirty "a" }
    ∧ (Map.Delete (runOps c5ops) "a").cells = (runOps c5ops).cells
    ∧ alookup (Map.Delete (runOps c5ops) "a").dirty "a" = none :=
  C5_amended_slow_delete (runOps c5ops) "a" (by decide)

/-! ## Claim C1 -/

/-- C1: the code violates the claim.  Along `c1ops` the key "a" is stored
with value 2 and never deleted afterwards (the claimed reading is
`(some 2, true)`, and indeed Load returns it right after the Store),
yet after one more Load of the unrelated absent key "x" — which
triggers a promotion installing a dirty map that lost "a" — Load("a")
returns `(no-value, false)`. -/
theorem C1_lost_store_divergence :
    (Map.Load (runOps c1ops) "a").1 = (some 2, true)
    ∧ (Map.Load (stepOp (runOps c1ops) (Op.load "x")) "a").1 = (none, false) := by
  decide

/-! ## Claim C3 -/

/-- C3: the code violates the claim.  After `c3ops` the key "a" is absent
(it was stored and then deleted), so the claim requires
`LoadOrStore("a", 2)` to store 2 and return `(2, false)`; instead the
code returns `(no-value, false)`, leaves the state unchanged, and a
subsequent Load still reports not-found. -/
theorem C3_deleted_key_divergence :
    (Map.LoadOrStore (runOps c3ops) "a" 2).1 = (none, false)
    ∧ (Map.LoadOrStore (runOps c3ops) "a" 2).2 = runOps c3ops
    ∧ (Map.Load ((Map.LoadOrStore (runOps c3ops) "a" 2).2) "a").1 = (none, false) := by
  decide


/-! ## Claim C7: Store then LoadAndDelete -/

theorem miss_eq_stable {m : Map V} (hp : m.misses + 1 < m.dirty.length) :
    Map.miss m = { m with misses := m.misses + 1 } := by
  simp [Map.miss, hp]

theorem miss_eq_promote {m : Map V} (hp : ¬ (m.misses + 1 < m.dirty.length)) :
    Map.miss m =
      { m with v := m.dirty, dirty := aliveFilter m.cells m.dirty, misses := 0 } := by
  simp [Map.miss, hp]

/-- After a miss is recorded on a state whose dirty map binds `k` to a
deleted cell not reachable live through the snapshot, a Load of `k`
reports `(nil, false)`. -/
theorem Load_after_tombstone {m : Map V} {k : String} {i : Nat}
    (hv : alookup m.v k = none) (hd : alookup m.dirty k = some i)
    (hc : cellAt m.cells i = none) :
    (Map.Load (Map.miss m) k).1 = (none, false) := by
  by_cases hp : m.misses + 1 < m.dirty.length
  · rw [miss_eq_stable hp]
    rw [Load_eq_slow (m := { m with misses := m.misses + 1 }) hv]
    simp [entry.load, miss_cells, hd, hc]
  · rw [miss_eq_promote hp]
    rw [Load_eq_fast
      (m := { m with v := m.dirty, dirty := aliveFilter m.cells m.dirty, misses := 0 }) hd]
    simp [entry.load, hc]

/-- C7: from any well-formed state, after `Store(k, v)` the call
`LoadAndDelete(k)` returns `(v, true)`, and a `Load(k)` performed after
it returns `(no-value, false)`.  (`Map.LoadAndDelete` is modelled from
the spec; see its definition.) -/
theorem C7_store_loadAndDelete (m : Map V) (k : String) (x : V) (hwf : m.WF) :
    ((Map.Store m k x).LoadAndDelete k).1 = (some x, true)
    ∧ (Map.Load (((Map.Store m k x).LoadAndDelete k).2) k).1 = (none, false) := by
  cases hv : alookup m.v k with
  | some i =>
    have hi : i < m.cells.length := hwf.1 _ (alookup_mem hv)
    have hc1 : cellAt (entry.store m.cells i x) i = some x := by
      unfold entry.store
      exact cellAt_set_self hi _
    constructor
    · have h1eq : ((Map.Store m k x).LoadAndDelete k).1
          = (cellAt (entry.store m.cells i x) i, (cellAt (entry.store m.cells i x) i).isSome) := by
        simp [Map.Store, Map.LoadAndDelete, hv]
      rw [h1eq, hc1]
      simp
    · have h2eq : ((Map.Store m k x).LoadAndDelete k).2
          = { m with cells := entry.delete (entry.store m.cells i x) i } := by
        simp [Map.Store, Map.LoadAndDelete, hv]
      rw [h2eq]
      apply Load_reports_none
      · intro i2 h
        change alookup m.v k = some i2 at h
        rw [hv] at h
        injection h with h
        subst h
        simp [entry.delete, cellAt_set_none]
      · intro hnone
        change alookup m.v k = none at hnone
        rw [hv] at hnone
        cases hnone
  | none =>
    cases hd : alookup m.dirty k with
    | some i =>
      have hi : i < m.cells.length := hwf.2 _ (alookup_mem hd)
      have hc1 : cellAt (entry.store m.cells i x) i = some x := by
        unfold entry.store
        exact cellAt_set_self hi _
      have hc2 : cellAt (entry.delete (entry.store m.cells i x) i) i = none := by
        unfold entry.delete
        exact cellAt_set_none _ _
      constructor
      · have h1eq : ((Map.Store m k x).LoadAndDelete k).1
            = (cellAt (entry.store m.cells i x) i, (cellAt (entry.store m.cells i x) i).isSome) := by
          simp [Map.Store, Map.LoadAndDelete, hv, hd]
        rw [h1eq, hc1]
        simp
      · have h2eq : ((Map.Store m k x).LoadAndDelete k).2
            = Map.miss { m with cells := entry.delete (entry.store m.cells i x) i } := by
          simp [Map.Store, Map.LoadAndDelete, hv, hd]
        rw [h2eq]
        exact Load_after_tombstone hv hd hc2
    | none =>
      have hv3 : alookup (Map.miss m).v k = none := alookup_miss_v_none hv hd
      have hd3 : alookup (Map.miss m).dirty k = none := alookup_miss_dirty_none hd
      constructor
      · have h1eq : ((Map.Store m k x).LoadAndDelete k).1
            = (cellAt (newEntry (Map.miss m).cells x) (Map.miss m).cells.length,
               (cellAt (newEntry (Map.miss m).cells x) (Map.miss m).cells.length).isSome) := by
          simp [Map.Store, Map.LoadAndDelete, hv, hd, hv3, alookup_ainsert_self]
        rw [h1eq]
        unfold newEntry
        rw [cellAt_append_self]
        simp
      · have h2eq : ((Map.Store m k x).LoadAndDelete k).2
            = Map.miss { Map.miss m with
                  dirty := ainsert (Map.miss m).dirty k (Map.miss m).cells.length
                , cells := entry.delete (newEntry (Map.miss m).cells x)
                    (Map.miss m).cells.length } := by
          simp [Map.Store, Map.LoadAndDelete, hv, hd, hv3, alookup_ainsert_self]
        rw [h2eq]
        apply Load_after_tombstone
        · exact hv3
        · exact alookup_ainsert_self _ _ _
        · unfold entry.delete
          exact cellAt_set_none _ _

/-- Witness for C7 at the zero map with key "a" and value 1. -/
theorem C7_witness :
    ((Map.Store (Map.zero : Map Nat) "a" 1).LoadAndDelete "a").1 = (some 1, true)
    ∧ (Map.Load (((Map.Store (Map.zero : Map Nat) "a" 1).LoadAndDelete "a").2) "a").1
        = (none, false) :=
  C7_store_loadAndDelete Map.zero "a" 1 (by decide)


/-! ## Claim C8: the single-shared-cell invariant -/

theorem functional_sub {a b : List (String × Nat)} (hsub : ∀ p ∈ a, p ∈ b)
    (hf : Functional b) : Functional a :=
  fun k i j hi hj => hf k i j (hsub _ hi) (hsub _ hj)

theorem functional_ainsert {l : List (String × Nat)} (hf : Functional l)
    (k : String) (n : Nat) : Functional (ainsert l k n) := by
  intro q i j hi hj
  rcases mem_ainsert hi with h1 | h1
  · rcases mem_ainsert hj with h2 | h2
    · have e1 : i = n := congrArg Prod.snd h1
      have e2 : j = n := congrArg Prod.snd h2
      rw [e1, e2]
    · have hq : q = k := congrArg Prod.fst h1
      exact absurd hq h2.2
  · rcases mem_ainsert hj with h2 | h2
    · have hq : q = k := congrArg Prod.fst h2
      exact absurd hq h1.2
    · exact hf q i j h1.1 h2.1

theorem inv_miss {m : Map V} (h : Inv m) : Inv m.miss := by
  by_cases hp : m.misses + 1 < m.dirty.length
  · rw [miss_eq_stable hp]
    exact h
  · rw [miss_eq_promote hp]
    refine ⟨h.2.1, ?_, ?_⟩
    · exact functional_sub (fun p hp2 => (mem_aliveFilter.1 hp2).1) h.2.1
    · intro q i j hi hj
      exact h.2.1 q i j hi (mem_aliveFilter.1 hj).1

theorem inv_Store {m : Map V} (h : Inv m) (k : String) (x : V) :
    Inv (Map.Store m k x) := by
  cases hv : alookup m.v k with
  | some i => rw [Store_eq_v x hv]; exact h
  | none =>
    cases hd : alookup m.dirty k with
    | some i => rw [Store_eq_dirty x hv hd]; exact h
    | none =>
      rw [Store_eq_alloc x hv hd]
      have hm := inv_miss h
      have hvn : alookup m.miss.v k = none := alookup_miss_v_none hv hd
      refine ⟨hm.1, functional_ainsert hm.2.1 k _, ?_⟩
      intro q i j hi hj
      rcases mem_ainsert hj with h1 | h1
      · have hq : q = k := congrArg Prod.fst h1
        subst hq
        exact absurd hi (not_mem_of_alookup_none hvn i)
      · exact hm.2.2 q i j hi h1.1

theorem inv_Load {m : Map V} (h : Inv m) (k : String) : Inv (Map.Load m k).2 := by
  cases hv : alookup m.v k with
  | some i => rw [Load_eq_fast hv]; exact h
  | none => rw [Load_eq_slow hv]; exact inv_miss h

theorem inv_Delete {m : Map V} (h : Inv m) (k : String) : Inv (Map.Delete m k) := by
  cases hv : alookup m.v k with
  | some i => rw [Delete_eq_fast hv]; exact h
  | none =>
    rw [Delete_eq_slow hv]
    apply inv_miss
    refine ⟨h.1, ?_, ?_⟩
    · exact functional_sub (fun p hp => (mem_aerase hp).1) h.2.1
    · intro q i j hi hj
      exact h.2.2 q i j hi (mem_aerase hj).1

theorem inv_LoadOrStore {m : Map V} (h : Inv m) (k : String) (x : V) :
    Inv (Map.LoadOrStore m k x).2 := by
  cases hv : alookup m.v k with
  | some i => rw [LoadOrStore_eq_fast x hv]; exact h
  | none =>
    cases hd : alookup m.dirty k with
    | some i => rw [LoadOrStore_eq_dirty x hv hd]; exact inv_miss h
    | none =>
      rw [LoadOrStore_eq_alloc x hv hd]
      have hm := inv_miss h
      have hvn : alookup m.miss.v k = none := alookup_miss_v_none hv hd
      refine ⟨hm.1, functional_ainsert hm.2.1 k _, ?_⟩
      intro q i j hi hj
      rcases mem_ainsert hj with h1 | h1
      · have hq : q = k := congrArg Prod.fst h1
        subst hq
        exact absurd hi (not_mem_of_alookup_none hvn i)
      · exact hm.2.2 q i j hi h1.1

theorem inv_stepOp {m : Map V} (h : Inv m) (op : Op V) : Inv (stepOp m op) := by
  cases op with
  | store k x => exact inv_Store h k x
  | load k => exact inv_Load h k
  | del k => exact inv_Delete h k
  | loadOrStore k x => exact inv_LoadOrStore h k x

theorem inv_zero : Inv (Map.zero : Map V) :=
  ⟨fun _ _ _ hi _ => absurd hi (List.not_mem_nil _),
   fun _ _ _ hi _ => absurd hi (List.not_mem_nil _),
   fun _ _ _ hi _ => absurd hi (List.not_mem_nil _)⟩

theorem inv_foldl {m : Map V} (h : Inv m) (ops : List (Op V)) :
    Inv (ops.foldl stepOp m) := by
  induction ops generalizing m with
  | nil => exact h
  | cons op rest ih => exact ih (inv_stepOp h op)

theorem inv_runOps (ops : List (Op V)) : Inv (runOps ops) :=
  inv_foldl inv_zero ops

/-- A Store on a key present in the snapshot or the dirty map writes the
existing cell and allocates nothing. -/
theorem store_no_alloc {m : Map V} {k : String} (x : V)
    (h : (alookup m.v k).isSome = true ∨ (alookup m.dirty k).isSome = true) :
    (Map.Store m k x).cells.length = m.cells.length := by
  cases hv : alookup m.v k with
  | some i => rw [Store_eq_v x hv]; simp [entry.store]
  | none =>
    cases hd : alookup m.dirty k with
    | some i => rw [Store_eq_dirty x hv hd]; simp [entry.store]
    | none =>
      rw [hv, hd] at h
      simp at h

/-- A LoadOrStore on a key present in the snapshot or the dirty map only
reads (and possibly records a miss); it allocates nothing. -/
theorem loadOrStore_no_alloc {m : Map V} {k : String} (x : V)
    (h : (alookup m.v k).isSome = true ∨ (alookup m.dirty k).isSome = true) :
    ((Map.LoadOrStore m k x).2).cells.length = m.cells.length := by
  cases hv : alookup m.v k with
  | some i => rw [LoadOrStore_eq_fast x hv]
  | none =>
    cases hd : alookup m.dirty k with
    | some i =>
      rw [LoadOrStore_eq_dirty x hv hd]
      rw [miss_cells]
    | none =>
      rw [hv, hd] at h
      simp at h

/-- C8: in every state reachable by any sequence of operations on the zero
map, a key present in both the snapshot and the dirty map is bound to
the same (shared) entry cell in both; and a Store or LoadOrStore of a
key present in either map allocates no new cell — allocation happens
only when the key is absent from both. -/
theorem C8_shared_cell_invariant (ops : List (Op V)) (k : String) :
    (∀ i j, alookup (runOps ops).v k = some i →
      alookup (runOps ops).dirty k = some j → i = j)
    ∧ (∀ x, ((alookup (runOps ops).v k).isSome = true
          ∨ (alookup (runOps ops).dirty k).isSome = true) →
        (Map.Store (runOps ops) k x).cells.length = (runOps ops).cells.length
        ∧ ((Map.LoadOrStore (runOps ops) k x).2).cells.length
            = (runOps ops).cells.length) := by
  constructor
  · intro i j hi hj
    exact (inv_runOps ops).2.2 k i j (alookup_mem hi) (alookup_mem hj)
  · intro x h
    exact ⟨store_no_alloc x h, loadOrStore_no_alloc x h⟩

/-- Witness for C8 after `c8ops`, where "a" is bound to cell 0 in both the
snapshot and the dirty map. -/
theorem C8_witness :
    (0 : Nat) = 0
    ∧ (Map.Store (runOps c8ops) "a" 2).cells.length = (runOps c8ops).cells.length
    ∧ ((Map.LoadOrStore (runOps c8ops) "a" 2).2).cells.length
        = (runOps c8ops).cells.length :=
  ⟨(C8_shared_cell_invariant c8ops "a").1 0 0 (by decide) (by decide),
   ((C8_shared_cell_invariant c8ops "a").2 2 (Or.inl (by decide))).1,
   ((C8_shared_cell_invariant c8ops "a").2 2 (Or.inl (by decide))).2⟩


/-! ## Claim C10: the two variants agree on store/load-only histories -/

theorem copyAll_eq (l : List (String × Nat)) : copyAll l = l := by
  induction l with
  | nil => rfl
  | cons p t ih => simp [copyAll, ih]

theorem aliveFilter_eq_self {c : List (Option V)} {l : List (String × Nat)}
    (h : ∀ p ∈ l, (cellAt c p.2).isSome = true) : aliveFilter c l = l := by
  induction l with
  | nil => rfl
  | cons p t ih =>
    obtain ⟨k, i⟩ := p
    have hp : (cellAt c i).isSome = true := h (k, i) (List.mem_cons_self _ _)
    simp [aliveFilter, hp]
    exact ih (fun q hq => h q (List.mem_cons_of_mem _ hq))

theorem good_alive {m : Map V} (h : Good m) {p : String × Nat} (hp : p ∈ m.dirty) :
    (cellAt m.cells p.2).isSome = true := by
  have hlt : p.2 < m.cells.length := h.1.2 p hp
  exact h.2 _ (cellAt_mem hlt)

theorem v1_miss_eq {m : Map V} (h : Good m) : V1.miss m = Map.miss m := by
  unfold V1.miss Map.miss
  by_cases hp : m.misses + 1 < m.dirty.length
  · simp [hp]
  · simp [hp, copyAll_eq, aliveFilter_eq_self (fun p hq => good_alive h hq)]

theorem v1_store_eq {m : Map V} (h : Good m) (k : String) (x : V) :
    V1.Store m k x = Map.Store m k x := by
  unfold V1.Store Map.Store
  cases hv : alookup m.v k with
  | some i => rfl
  | none =>
    cases hd : alookup m.dirty k with
    | some i => simp [hv, hd]
    | none => simp [hv, hd, v1_miss_eq h]

theorem v1_load_eq {m : Map V} (h : Good m) (k : String) :
    V1.Load m k = Map.Load m k := by
  unfold V1.Load Map.Load
  cases hv : alookup m.v k with
  | some i =>
    have hlt : i < m.cells.length := h.1.1 _ (alookup_mem hv)
    have hs : (cellAt m.cells i).isSome = true := h.2 _ (cellAt_mem hlt)
    obtain ⟨x, hx⟩ := Option.isSome_iff_exists.1 hs
    simp [hv, V1.load, entry.load, hx]
  | none =>
    cases hd : alookup m.dirty k with
    | some i =>
      have hlt : i < m.cells.length := h.1.2 _ (alookup_mem hd)
      have hs : (cellAt m.cells i).isSome = true := h.2 _ (cellAt_mem hlt)
      obtain ⟨x, hx⟩ := Option.isSome_iff_exists.1 hs
      simp [hv, hd, V1.load, entry.load, v1_miss_eq h, miss_cells, hx]
    | none =>
      simp [hv, hd, V1.load, entry.load, v1_miss_eq h]

theorem good_miss {m : Map V} (h : Good m) : Good (Map.miss m) := by
  by_cases hp : m.misses + 1 < m.dirty.length
  · rw [miss_eq_stable hp]
    exact h
  · rw [miss_eq_promote hp]
    refine ⟨⟨h.1.2, ?_⟩, h.2⟩
    intro p hp2
    exact h.1.2 p (mem_aliveFilter.1 hp2).1

theorem good_cells_store {c : List (Option V)} (hc : ∀ x ∈ c, x.isSome = true)
    (i : Nat) (w : V) : ∀ x ∈ entry.store c i w, x.isSome = true := by
  intro x hx
  rcases List.mem_or_eq_of_mem_set hx with hx2 | hx2
  · exact hc x hx2
  · rw [hx2]; rfl

theorem good_Store {m : Map V} (h : Good m) (k : String) (x : V) :
    Good (Map.Store m k x) := by
  cases hv : alookup m.v k with
  | some i =>
    rw [Store_eq_v x hv]
    refine ⟨⟨?_, ?_⟩, good_cells_store h.2 i x⟩
    · intro p hp
      have := h.1.1 p hp
      simpa [entry.store] using this
    · intro p hp
      have := h.1.2 p hp
      simpa [entry.store] using this
  | none =>
    cases hd : alookup m.dirty k with
    | some i =>
      rw [Store_eq_dirty x hv hd]
      refine ⟨⟨?_, ?_⟩, good_cells_store h.2 i x⟩
      · intro p hp
        have := h.1.1 p hp
        simpa [entry.store] using this
      · intro p hp
        have := h.1.2 p hp
        simpa [entry.store] using this
    | none =>
      rw [Store_eq_alloc x hv hd]
      have hm := good_miss h
      refine ⟨⟨?_, ?_⟩, ?_⟩
      · intro p hp
        have := hm.1.1 p hp
        simp [newEntry]
        omega
      · intro p hp
        rcases mem_ainsert hp with h1 | h1
        · have : p.2 = (Map.miss m).cells.length := congrArg Prod.snd h1
          simp [newEntry, this]
        · have := hm.1.2 p h1.1
          simp [newEntry]
          omega
      · intro c hc
        rcases List.mem_append.1 hc with h1 | h1
        · exact hm.2 c h1
        · simp at h1
          rw [h1]
          rfl

theorem good_Load {m : Map V} (h : Good m) (k : String) :
    Good (Map.Load m k).2 := by
  cases hv : alookup m.v k with
  | some i => rw [Load_eq_fast hv]; exact h
  | none => rw [Load_eq_slow hv]; exact good_miss h

theorem good_zero : Good (Map.zero : Map V) :=
  ⟨⟨fun _ hp => absurd hp (List.not_mem_nil _), fun _ hp => absurd hp (List.not_mem_nil _)⟩,
   fun _ hc => absurd hc (List.not_mem_nil _)⟩

theorem run_eq {m : Map V} (h : Good m) (ops : List (RWOp V)) :
    run1 ops m = run2 ops m := by
  induction ops generalizing m with
  | nil => rfl
  | cons op rest ih =>
    cases op with
    | store k x =>
      show run1 rest (V1.Store m k x) = run2 rest (Map.Store m k x)
      rw [v1_store_eq h]
      exact ih (good_Store h k x)
    | load k =>
      have h1 : run1 (RWOp.load k :: rest) m
          = ((run1 rest (V1.Load m k).2).1,
             (V1.Load m k).1 :: (run1 rest (V1.Load m k).2).2) := rfl
      have h2 : run2 (RWOp.load k :: rest) m
          = ((run2 rest (Map.Load m k).2).1,
             (Map.Load m k).1 :: (run2 rest (Map.Load m k).2).2) := rfl
      rw [h1, h2, v1_load_eq h, ih (good_Load h k)]

/-- C10: on every store/load-only history from the zero map, the first
variant (syncmap.go lines 1–93) and the second variant (lines 94–244)
return identical `(value, ok)` results for every Load. -/
theorem C10_variant_equivalence (ops : List (RWOp V)) :
    (run1 ops (Map.zero : Map V)).2 = (run2 ops Map.zero).2 := by
  rw [run_eq good_zero ops]

end Syncmap
